import Mathlib

/-!
Verification of the day-state reconciliation engine of the Focus-one
daily-planning application: the Day Store (keyed per-day records with
partial updates and snapshot undo), the Task-Completion Reconciler
(block splitting on task completion), and the Adaptive Replan Merge
(past/future partition of a schedule at the current time, spliced with
gateway-returned blocks).

JavaScript strings are embedded as lists of characters (`Str`); the
relational operators on JS strings compare code units lexicographically,
which `strLtB`/`strLeB` reproduce character by character.
-/

namespace FocusOne

/-- A JavaScript string, embedded as its list of characters. -/
abbrev Str := List Char

/-- Coerce a Lean string literal to the embedding type. -/
def str (s : String) : Str := s.data

/-- Lexicographic strict comparison of JS strings (code-unit order),
the semantics of the < operator on two strings. -/
def strLtB : Str → Str → Bool
  | [], [] => false
  | [], _ :: _ => true
  | _ :: _, [] => false
  | c :: cs, d :: ds => if c < d then true else if d < c then false else strLtB cs ds

/-- Lexicographic comparison of JS strings, the semantics of the
<= operator on two strings. -/
def strLeB : Str → Str → Bool
  | [], _ => true
  | _ :: _, [] => false
  | c :: cs, d :: ds => if c < d then true else if d < c then false else strLeB cs ds

/-- Does the pattern occur at the head of the list? Helper for `hasSub`. -/
def leadMatch : Str → Str → Bool
  | [], _ => true
  | _ :: _, [] => false
  | p :: ps, c :: cs => p == c && leadMatch ps cs

/-- Does the pattern occur anywhere in the list? Helper for `strIncludes`. -/
def hasSub (pat : Str) : Str → Bool
  | [] => pat.isEmpty
  | c :: cs => leadMatch pat (c :: cs) || hasSub pat cs

/-- JS `s.includes(pat)`: substring containment. -/
def strIncludes (s pat : Str) : Bool := hasSub pat s

/-- A task, as in `types.ts` and the gateway JSON schema. -/
structure Task where
  id : Str
  title : Str
  durationMinutes : Nat
  isFixed : Bool
  fixedTime : Option Str
  priority : Str
  energyLevel : Str
  completed : Bool
  domain : Str
deriving DecidableEq

/-- A scheduled time block, as in `types.ts` and the gateway JSON schema. -/
structure TimeBlock where
  id : Str
  startTime : Str
  endTime : Str
  label : Str
  type : Str
  taskId : Option Str
  isCompleted : Bool
  energyLevel : Str
  domain : Str
deriving DecidableEq

/-- The undo snapshot stored in a day record's `previousVersion` field. -/
structure PreviousVersion where
  tasks : List Task
  schedule : List TimeBlock
  explanation : Str
deriving DecidableEq

/-- A per-day record (`DayData` in the source). -/
structure DayData where
  tasks : List Task
  schedule : List TimeBlock
  explanation : Str
  date : Str
  distractions : List Str
  previousVersion : Option PreviousVersion
deriving DecidableEq

/-- A partial update (`Partial<DayData>` in the source): `none` means the
field is absent from the update object.  For `previousVersion` the outer
option is absence from the update, the inner option is the stored value
(`handleUndo` explicitly writes `undefined`, i.e. `some none`). -/
structure DayUpdate where
  tasks : Option (List Task) := none
  schedule : Option (List TimeBlock) := none
  explanation : Option Str := none
  date : Option Str := none
  distractions : Option (List Str) := none
  previousVersion : Option (Option PreviousVersion) := none

/-- The Day Store's backing map `days : Record<string, DayData>`. -/
def Store := Str → Option DayData

/-- The lazily synthesized empty record for a date not yet in the store. -/
def defaultDayData (date : Str) : DayData :=
  { tasks := [], schedule := [], explanation := [], date := date
    distractions := [], previousVersion := none }

/-- `getDayData`: read access that synthesizes an empty default record. -/
def getDayData (days : Store) (date : Str) : DayData :=
  (days date).getD (defaultDayData date)

/-- Spread merge `{ ...getDayData(date), ...updates }`. -/
def applyUpdate (d : DayData) (u : DayUpdate) : DayData :=
  { tasks := u.tasks.getD d.tasks
    schedule := u.schedule.getD d.schedule
    explanation := u.explanation.getD d.explanation
    date := u.date.getD d.date
    distractions := u.distractions.getD d.distractions
    previousVersion := u.previousVersion.getD d.previousVersion }

/-- `updateDayData`: merge a partial update into the record for a date. -/
def updateDayData (days : Store) (date : Str) (u : DayUpdate) : Store :=
  fun k => if k = date then some (applyUpdate (getDayData days date) u) else days k

/-- The truncated copy of a block straddling the current time, built by
`handleReplan`. -/
def truncateBlock (currentTime : Str) (b : TimeBlock) : TimeBlock :=
  { b with
    id := b.id ++ str "-truncated"
    endTime := currentTime
    label := if strIncludes b.label (str "(Partial)") then b.label
             else b.label ++ str " (Partial)" }

/-- The `pastBlocks` accumulation loop of `handleReplan`: push blocks that
ended at or before the current time verbatim, push a truncated copy of a
block straddling the current time, skip everything else. -/
def pastBlocksOf (currentTime : Str) (schedule : List TimeBlock) : List TimeBlock :=
  schedule.foldl
    (fun acc b =>
      if strLeB b.endTime currentTime then acc ++ [b]
      else if strLtB b.startTime currentTime && strLtB currentTime b.endTime then
        acc ++ [truncateBlock currentTime b]
      else acc)
    []

/-- The value produced by one `adaptiveReplan` gateway call. -/
structure ReplanResult where
  tasks : List Task
  schedule : List TimeBlock
  explanation : Str
deriving DecidableEq

/-- The catch clause of `adaptiveReplan` in `geminiService.ts`: on any
gateway or parse error it returns the input tasks, an empty schedule and a
fixed failure explanation. -/
def adaptiveReplanFailure (tasks : List Task) : ReplanResult :=
  { tasks := tasks, schedule := [], explanation := str "Replan failed. Please try again." }

/-- `handleReplan`, parameterized by the gateway call's outcome: reject
non-today dates, snapshot the record, partition the schedule at the
captured current time, and write back the merge of past blocks with the
gateway schedule together with the gateway task list, explanation, and the
snapshot. -/
def handleReplan (days : Store) (selectedDate todayStr currentTime : Str)
    (result : ReplanResult) : Store :=
  if selectedDate ≠ todayStr then days
  else
    let currentData := getDayData days todayStr
    let previousVersion : PreviousVersion :=
      { tasks := currentData.tasks
        schedule := currentData.schedule
        explanation := currentData.explanation }
    let pastBlocks := pastBlocksOf currentTime currentData.schedule
    updateDayData days todayStr
      { tasks := some result.tasks
        schedule := some (pastBlocks ++ result.schedule)
        explanation := some result.explanation
        previousVersion := some (some previousVersion) }

/-- A replan whose gateway call failed: `adaptiveReplan` was invoked with
the current task list and its catch clause produced the failure result. -/
def handleReplanFailed (days : Store) (selectedDate todayStr currentTime : Str) : Store :=
  handleReplan days selectedDate todayStr currentTime
    (adaptiveReplanFailure (getDayData days todayStr).tasks)

/-- `handleUndo`: restore tasks, schedule and explanation from the
snapshot and clear it; a no-op when no snapshot exists. -/
def handleUndo (days : Store) (selectedDate : Str) : Store :=
  let currentData := getDayData days selectedDate
  match currentData.previousVersion with
  | none => days
  | some pv =>
      updateDayData days selectedDate
        { tasks := some pv.tasks
          schedule := some pv.schedule
          explanation := some pv.explanation
          previousVersion := some none }

/-- The `tasks.map` loop of `handleToggleTask` together with the mutable
`isNowCompleted` flag it assigns on every matching task. -/
def toggleTasks (taskId : Str) (tasks : List Task) : List Task × Bool :=
  tasks.foldl
    (fun acc t =>
      if t.id = taskId then (acc.1 ++ [{ t with completed := !t.completed }], !t.completed)
      else (acc.1 ++ [t], acc.2))
    ([], false)

/-- The per-block case of the `flatMap` in `handleToggleTask` when the
task was just completed on today's date: a block of the completed task
that is in progress is replaced by a shortened completed copy followed by
an Efficiency Bonus break; any other block of the task is marked
completed; unrelated blocks pass through. -/
def splitBlockOnComplete (currentTime taskId : Str) (b : TimeBlock) : List TimeBlock :=
  if b.taskId = some taskId then
    if strLtB b.startTime currentTime && strLtB currentTime b.endTime then
      [{ b with endTime := currentTime, isCompleted := true
                label := b.label ++ str " (Done)" },
       { id := b.id ++ str "-buffer"
         startTime := currentTime
         endTime := b.endTime
         label := str "Efficiency Bonus"
         type := str "break"
         taskId := none
         isCompleted := false
         energyLevel := str "low"
         domain := str "Routine" }]
    else [{ b with isCompleted := true }]
  else [b]

/-- `handleToggleTask`: flip the task's completed flag and reconcile the
schedule, with time-based splitting only on today's date. -/
def handleToggleTask (days : Store) (selectedDate todayStr currentTime taskId : Str) : Store :=
  let currentData := getDayData days selectedDate
  let toggled := toggleTasks taskId currentData.tasks
  let newSchedule :=
    if selectedDate = todayStr then
      if toggled.2 then
        currentData.schedule.flatMap (splitBlockOnComplete currentTime taskId)
      else
        currentData.schedule.map
          (fun b => if b.taskId = some taskId then { b with isCompleted := false } else b)
    else
      if toggled.2 then
        currentData.schedule.map
          (fun b => if b.taskId = some taskId then { b with isCompleted := true } else b)
      else
        currentData.schedule.map
          (fun b => if b.taskId = some taskId then { b with isCompleted := false } else b)
  updateDayData days selectedDate { tasks := some toggled.1, schedule := some newSchedule }

/-- `handleUpdateDistractions`: write only the distractions field. -/
def handleUpdateDistractions (days : Store) (selectedDate : Str)
    (newDistractions : List Str) : Store :=
  updateDayData days selectedDate { distractions := some newDistractions }

/-- JS `Number` on a string of decimal digits. -/
def toNumber (l : Str) : Nat := l.foldl (fun acc c => acc * 10 + (c.toNat - 48)) 0

/-- JS `s.split(sep)` for a single-character separator. -/
def splitOnChar (sep : Char) : Str → List Str
  | [] => [[]]
  | c :: cs =>
      let rest := splitOnChar sep cs
      if c = sep then [] :: rest
      else
        match rest with
        | [] => [[c]]
        | r :: rs => (c :: r) :: rs

/-- `getMinutes` from `FocusView.tsx`: split an HH:MM string on the colon
and return hours times sixty plus minutes. -/
def getMinutes (timeStr : Str) : Nat :=
  let parts := (splitOnChar ':' timeStr).map toNumber
  parts.getD 0 0 * 60 + parts.getD 1 0

/-- Is the character a decimal digit (code points 48 to 57)? -/
def isDigitCh (c : Char) : Bool := 48 ≤ c.toNat && c.toNat ≤ 57

/-- A well-formed wall-clock string: five characters HH:MM with a
two-digit hour below 24 and a two-digit minute below 60. -/
def isValidHHMM : Str → Bool
  | [h1, h2, c, m1, m2] =>
      c == ':' &&
      isDigitCh h1 && isDigitCh h2 && isDigitCh m1 && isDigitCh m2 &&
      decide ((h1.toNat - 48) * 10 + (h2.toNat - 48) < 24) &&
      decide ((m1.toNat - 48) * 10 + (m2.toNat - 48) < 60)
  | _ => false

/-! ### Basic store lemmas -/

theorem getDayData_updateDayData_self (days : Store) (date : Str) (u : DayUpdate) :
    getDayData (updateDayData days date u) date = applyUpdate (getDayData days date) u := by
  simp [getDayData, updateDayData]

theorem updateDayData_other (days : Store) (date : Str) (u : DayUpdate) (k : Str)
    (h : k ≠ date) : updateDayData days date u k = days k := by
  simp [updateDayData, h]

/-! ### Replan, failure path and undo (C1, C2, C6, C10) -/

/-- C1 (counterexample): with one not-yet-started block on today's
schedule, a replan whose gateway call fails does not leave the day record
unmodified up to the explanation text: the written-back schedule has lost
the future block and `previousVersion` has been overwritten with the
snapshot. -/
theorem replan_failed_modifies_record_cex :
    let today := str "2025-06-01"
    let b : TimeBlock :=
      { id := str "b1", startTime := str "13:00", endTime := str "14:00"
        label := str "Deep Work", type := str "work", taskId := none
        isCompleted := false, energyLevel := str "high", domain := str "Academic" }
    let d0 : DayData :=
      { tasks := [], schedule := [b], explanation := str "plan"
        date := today, distractions := [], previousVersion := none }
    let days : Store := fun k => if k = today then some d0 else none
    let post := getDayData (handleReplanFailed days today today (str "12:00")) today
    post.schedule ≠ d0.schedule ∧ post.previousVersion ≠ d0.previousVersion := by
  decide

/-- C1 (amended): a failed replan on today's date leaves tasks,
distractions and the date unchanged and surfaces the failure explanation,
but the written-back schedule is only the preserved past partition (the
future blocks are dropped) and `previousVersion` becomes the pre-call
snapshot. -/
theorem replan_failed_resulting_record (days : Store) (todayStr currentTime : Str) :
    let pre := getDayData days todayStr
    let post := getDayData (handleReplanFailed days todayStr todayStr currentTime) todayStr
    post.tasks = pre.tasks ∧
    post.distractions = pre.distractions ∧
    post.date = pre.date ∧
    post.explanation = str "Replan failed. Please try again." ∧
    post.schedule = pastBlocksOf currentTime pre.schedule ∧
    post.previousVersion =
      some { tasks := pre.tasks, schedule := pre.schedule, explanation := pre.explanation } := by
  simp [handleReplanFailed, handleReplan, adaptiveReplanFailure,
    getDayData_updateDayData_self, applyUpdate]

/-- C2: when the gateway call of a replan on today's date fails, the
written-back task list equals the pre-call task list exactly, the failure
result contributes an empty future schedule, and the written-back schedule
is the past partition followed by that empty contribution. -/
theorem replan_failed_tasks_exact_future_empty (days : Store) (todayStr currentTime : Str) :
    let pre := getDayData days todayStr
    let post := getDayData (handleReplanFailed days todayStr todayStr currentTime) todayStr
    post.tasks = pre.tasks ∧
    (adaptiveReplanFailure pre.tasks).schedule = [] ∧
    post.schedule = pastBlocksOf currentTime pre.schedule
        ++ (adaptiveReplanFailure pre.tasks).schedule := by
  simp [handleReplanFailed, handleReplan, adaptiveReplanFailure,
    getDayData_updateDayData_self, applyUpdate]

/-- C6: a replan (with any gateway outcome) followed by undo restores
tasks, schedule and explanation to their pre-replan values and clears
`previousVersion`; a second undo with no snapshot remaining returns the
same store unchanged. -/
theorem replan_then_undo_roundtrip (days : Store) (todayStr currentTime : Str)
    (result : ReplanResult) :
    let pre := getDayData days todayStr
    let days2 := handleUndo (handleReplan days todayStr todayStr currentTime result) todayStr
    let post := getDayData days2 todayStr
    post.tasks = pre.tasks ∧
    post.schedule = pre.schedule ∧
    post.explanation = pre.explanation ∧
    post.previousVersion = none ∧
    handleUndo days2 todayStr = days2 := by
  simp [handleReplan, handleUndo, getDayData_updateDayData_self, applyUpdate]

/-- C10: every replan on today's date, regardless of the gateway outcome,
stores the complete pre-call snapshot in `previousVersion`; hence an undo
performed after a failed replan restores the full pre-replan record,
including the future blocks the failed replan had dropped. -/
theorem replan_snapshot_and_undo_after_failure (days : Store) (todayStr currentTime : Str)
    (result : ReplanResult) :
    let pre := getDayData days todayStr
    (getDayData (handleReplan days todayStr todayStr currentTime result) todayStr).previousVersion
      = some { tasks := pre.tasks, schedule := pre.schedule, explanation := pre.explanation } ∧
    (let post := getDayData
        (handleUndo (handleReplanFailed days todayStr todayStr currentTime) todayStr) todayStr
     post.tasks = pre.tasks ∧
     post.schedule = pre.schedule ∧
     post.explanation = pre.explanation ∧
     post.previousVersion = none) := by
  simp [handleReplan, handleReplanFailed, handleUndo,
    getDayData_updateDayData_self, applyUpdate]

/-! ### Toggle helpers -/

theorem toggleTasks_foldl (taskId : Str) (ts : List Task) (acc : List Task) (flag : Bool) :
    ts.foldl
      (fun acc t =>
        if t.id = taskId then (acc.1 ++ [{ t with completed := !t.completed }], !t.completed)
        else (acc.1 ++ [t], acc.2))
      (acc, flag)
    = (acc ++ ts.map (fun t => if t.id = taskId then { t with completed := !t.completed } else t),
       ts.foldl (fun f t => if t.id = taskId then !t.completed else f) flag) := by
  induction ts generalizing acc flag with
  | nil => simp
  | cons t ts ih =>
      by_cases h : t.id = taskId <;> simp [h, ih]

theorem toggleTasks_eq (taskId : Str) (ts : List Task) :
    toggleTasks taskId ts
      = (ts.map (fun t => if t.id = taskId then { t with completed := !t.completed } else t),
         ts.foldl (fun f t => if t.id = taskId then !t.completed else f) false) := by
  simpa [toggleTasks] using toggleTasks_foldl taskId ts [] false

theorem toggle_flag_of_all_incomplete (taskId : Str) (ts : List Task)
    (hall : ∀ t ∈ ts, t.id = taskId → t.completed = false) (flag : Bool) :
    ts.foldl (fun f t => if t.id = taskId then !t.completed else f) flag
      = (flag || ts.any (fun t => t.id == taskId)) := by
  induction ts generalizing flag with
  | nil => simp
  | cons t ts ih =>
      by_cases h : t.id = taskId
      · have hc : t.completed = false := hall t (by simp) h
        simp [h, hc, ih (fun u hu => hall u (by simp [hu])) true]
      · have hb : (t.id == taskId) = false := by simp [h]
        simp [h, hb, ih (fun u hu => hall u (by simp [hu])) flag]

theorem toggleTasks_of_absent (taskId : Str) (ts : List Task)
    (h : ∀ t ∈ ts, t.id ≠ taskId) :
    toggleTasks taskId ts = (ts, false) := by
  rw [toggleTasks_eq]
  have h1 : ts.map (fun t => if t.id = taskId then { t with completed := !t.completed } else t)
      = ts := by
    induction ts with
    | nil => rfl
    | cons t ts ih =>
        simp [h t (by simp), ih (fun u hu => h u (by simp [hu]))]
  have h2 : ts.foldl (fun f t => if t.id = taskId then !t.completed else f) false = false := by
    clear h1
    induction ts with
    | nil => rfl
    | cons t ts ih =>
        simp [h t (by simp), ih (fun u hu => h u (by simp [hu]))]
  rw [h1, h2]

theorem splitBlock_length (currentTime taskId : Str) (l : List TimeBlock) :
    (l.flatMap (splitBlockOnComplete currentTime taskId)).length
      = l.length + (l.filter (fun b => b.taskId == some taskId
          && strLtB b.startTime currentTime && strLtB currentTime b.endTime)).length := by
  induction l with
  | nil => rfl
  | cons b bs ih =>
      by_cases h1 : b.taskId = some taskId
      · by_cases h2 : (strLtB b.startTime currentTime && strLtB currentTime b.endTime) = true
        · simp [splitBlockOnComplete, h1, h2, List.filter_cons, ih]
          omega
        · simp [splitBlockOnComplete, h1, h2, List.filter_cons, ih]
          simp only [Bool.and_eq_true] at h2 ⊢
          omega
      · have hb : (b.taskId == some taskId) = false := by
          simp [h1]
        simp [splitBlockOnComplete, h1, List.filter_cons, hb, ih]
        omega

/-! ### Task-completion reconciler (C4, C5, C8) -/

/-- C4: completing a task on today's date splits every in-progress block
of that task into a completed copy ending now followed by an Efficiency
Bonus break, leaves blocks of other tasks untouched, and grows the
schedule by exactly one block per split. -/
theorem toggle_complete_splits_in_progress_block (days : Store)
    (todayStr currentTime taskId : Str) (B : TimeBlock)
    (hex : ∃ t ∈ (getDayData days todayStr).tasks, t.id = taskId)
    (hall : ∀ t ∈ (getDayData days todayStr).tasks, t.id = taskId → t.completed = false)
    (hB : B ∈ (getDayData days todayStr).schedule)
    (hBt : B.taskId = some taskId)
    (hBs : strLtB B.startTime currentTime = true)
    (hBe : strLtB currentTime B.endTime = true) :
    let sched := (getDayData days todayStr).schedule
    let post := (getDayData (handleToggleTask days todayStr todayStr currentTime taskId)
        todayStr).schedule
    post = sched.flatMap (splitBlockOnComplete currentTime taskId) ∧
    splitBlockOnComplete currentTime taskId B =
      [{ B with endTime := currentTime, isCompleted := true
                label := B.label ++ str " (Done)" },
       { id := B.id ++ str "-buffer", startTime := currentTime, endTime := B.endTime
         label := str "Efficiency Bonus", type := str "break", taskId := none
         isCompleted := false, energyLevel := str "low", domain := str "Routine" }] ∧
    (∀ b : TimeBlock, b.taskId ≠ some taskId →
      splitBlockOnComplete currentTime taskId b = [b]) ∧
    post.length = sched.length +
      (sched.filter (fun b => b.taskId == some taskId
        && strLtB b.startTime currentTime && strLtB currentTime b.endTime)).length := by
  have hflag : (toggleTasks taskId (getDayData days todayStr).tasks).2 = true := by
    rw [toggleTasks_eq]
    rw [toggle_flag_of_all_incomplete taskId _ hall false]
    obtain ⟨t, ht, hid⟩ := hex
    simp [List.any_eq_true]
    exact ⟨t, ht, hid⟩
  refine ⟨?_, ?_, ?_, ?_⟩
  · simp [handleToggleTask, hflag, getDayData_updateDayData_self, applyUpdate]
  · simp [splitBlockOnComplete, hBt, hBs, hBe]
  · intro b hb
    simp [splitBlockOnComplete, hb]
  · simp only [handleToggleTask, hflag, if_pos rfl, if_true,
      getDayData_updateDayData_self, applyUpdate, Option.getD_some]
    exact splitBlock_length currentTime taskId _

/-- C4 (witness): a concrete task completed at 09:30 inside its
09:00-10:00 block. -/
theorem toggle_complete_splits_in_progress_block_witness :
    let today := str "2025-06-01"
    let t1 : Task :=
      { id := str "t1", title := str "Deep Work", durationMinutes := 60
        isFixed := false, fixedTime := none, priority := str "high"
        energyLevel := str "high", completed := false, domain := str "Academic" }
    let b : TimeBlock :=
      { id := str "b1", startTime := str "09:00", endTime := str "10:00"
        label := str "Deep Work", type := str "work", taskId := some (str "t1")
        isCompleted := false, energyLevel := str "high", domain := str "Academic" }
    let d0 : DayData :=
      { tasks := [t1], schedule := [b], explanation := [], date := today
        distractions := [], previousVersion := none }
    let days : Store := fun k => if k = today then some d0 else none
    (getDayData (handleToggleTask days today today (str "09:30") (str "t1")) today).schedule.length
      = 2 := by
  intro today t1 b d0 days
  have h := toggle_complete_splits_in_progress_block days today (str "09:30") (str "t1") b
    (by decide) (by decide) (by decide) (by decide) (by decide) (by decide)
  rw [h.2.2.2]
  decide

/-- C5 (counterexample): completing a task whose in-progress block is
already labelled with a " (Done)" suffix appends the suffix again; the
completed sub-block's label does not equal the original label. -/
theorem toggle_done_label_duplicated_cex :
    let today := str "2025-06-01"
    let t1 : Task :=
      { id := str "t1", title := str "Deep Work", durationMinutes := 60
        isFixed := false, fixedTime := none, priority := str "high"
        energyLevel := str "high", completed := false, domain := str "Academic" }
    let b : TimeBlock :=
      { id := str "b1", startTime := str "09:00", endTime := str "10:00"
        label := str "Deep Work (Done)", type := str "work", taskId := some (str "t1")
        isCompleted := false, energyLevel := str "high", domain := str "Academic" }
    let d0 : DayData :=
      { tasks := [t1], schedule := [b], explanation := [], date := today
        distractions := [], previousVersion := none }
    let days : Store := fun k => if k = today then some d0 else none
    let post := (getDayData (handleToggleTask days today today (str "09:30") (str "t1"))
        today).schedule
    post.map TimeBlock.label = [str "Deep Work (Done) (Done)", str "Efficiency Bonus"] ∧
    (post.map TimeBlock.label).head? ≠ some b.label := by
  decide

/-- C5 (amended): when the reconciler splits an in-progress block on task
completion, the completed sub-block's label is always the original label
with " (Done)" appended, even when that suffix is already present. -/
theorem toggle_done_label_always_appended (currentTime taskId : Str) (b : TimeBlock)
    (hBt : b.taskId = some taskId)
    (hBs : strLtB b.startTime currentTime = true)
    (hBe : strLtB currentTime b.endTime = true) :
    (splitBlockOnComplete currentTime taskId b).map TimeBlock.label
      = [b.label ++ str " (Done)", str "Efficiency Bonus"] := by
  simp [splitBlockOnComplete, hBt, hBs, hBe]

/-- C5 (amended, witness): the label "Gym (Done)" becomes
"Gym (Done) (Done)". -/
theorem toggle_done_label_always_appended_witness :
    let b : TimeBlock :=
      { id := str "b1", startTime := str "09:00", endTime := str "10:00"
        label := str "Gym (Done)", type := str "work", taskId := some (str "t1")
        isCompleted := false, energyLevel := str "high", domain := str "Health" }
    (splitBlockOnComplete (str "09:30") (str "t1") b).map TimeBlock.label
      = [str "Gym (Done) (Done)", str "Efficiency Bonus"] := by
  intro b
  have h := toggle_done_label_always_appended (str "09:30") (str "t1") b
    (by decide) (by decide) (by decide)
  rw [h]
  decide

theorem map_uncomplete_id (taskId : Str) (l : List TimeBlock)
    (h : ∀ b ∈ l, b.taskId = some taskId → b.isCompleted = false) :
    l.map (fun b => if b.taskId = some taskId then { b with isCompleted := false } else b)
      = l := by
  induction l with
  | nil => rfl
  | cons b bs ih =>
      have hrest := ih (fun u hu hq => h u (by simp [hu]) hq)
      by_cases hb : b.taskId = some taskId
      · have hc : b.isCompleted = false := h b (by simp) hb
        cases b
        simp_all
      · simp [hb, hrest]

/-- C8 (counterexample): toggling a taskId absent from the task list is
not an identity update on the schedule when a block still references that
taskId with isCompleted set: the block's isCompleted flag is forced to
false. -/
theorem toggle_unknown_task_changes_schedule_cex :
    let today := str "2025-06-01"
    let b : TimeBlock :=
      { id := str "b1", startTime := str "09:00", endTime := str "10:00"
        label := str "Gym", type := str "work", taskId := some (str "x")
        isCompleted := true, energyLevel := str "low", domain := str "Health" }
    let d0 : DayData :=
      { tasks := [], schedule := [b], explanation := [], date := today
        distractions := [], previousVersion := none }
    let days : Store := fun k => if k = today then some d0 else none
    let post := getDayData (handleToggleTask days today today (str "12:00") (str "x")) today
    post.tasks = d0.tasks ∧ post.schedule ≠ d0.schedule := by
  decide

/-- C8 (amended): toggling a taskId absent from the date's task list
leaves the task list unchanged and performs the update with no error, and
the written-back schedule equals the prior schedule with isCompleted
forced to false on every block referencing that taskId — identical to the
prior schedule whenever no such block was marked completed. -/
theorem toggle_unknown_task_noop (days : Store)
    (selectedDate todayStr currentTime taskId : Str)
    (h : ∀ t ∈ (getDayData days selectedDate).tasks, t.id ≠ taskId) :
    let pre := getDayData days selectedDate
    let post := getDayData (handleToggleTask days selectedDate todayStr currentTime taskId)
        selectedDate
    post.tasks = pre.tasks ∧
    post.schedule = pre.schedule.map
      (fun b => if b.taskId = some taskId then { b with isCompleted := false } else b) ∧
    ((∀ b ∈ pre.schedule, b.taskId = some taskId → b.isCompleted = false) →
      post.schedule = pre.schedule) ∧
    post.explanation = pre.explanation ∧
    post.distractions = pre.distractions ∧
    post.previousVersion = pre.previousVersion := by
  have htog := toggleTasks_of_absent taskId (getDayData days selectedDate).tasks h
  by_cases hsel : selectedDate = todayStr
  · subst hsel
    refine ⟨?_, ?_, ?_, ?_, ?_, ?_⟩
    · simp [handleToggleTask, htog, getDayData_updateDayData_self, applyUpdate]
    · simp [handleToggleTask, htog, getDayData_updateDayData_self, applyUpdate]
    · intro hall
      simp [handleToggleTask, htog, getDayData_updateDayData_self, applyUpdate,
        map_uncomplete_id taskId _ hall]
    · simp [handleToggleTask, htog, getDayData_updateDayData_self, applyUpdate]
    · simp [handleToggleTask, htog, getDayData_updateDayData_self, applyUpdate]
    · simp [handleToggleTask, htog, getDayData_updateDayData_self, applyUpdate]
  · refine ⟨?_, ?_, ?_, ?_, ?_, ?_⟩
    · simp [handleToggleTask, htog, hsel, getDayData_updateDayData_self, applyUpdate]
    · simp [handleToggleTask, htog, hsel, getDayData_updateDayData_self, applyUpdate]
    · intro hall
      simp [handleToggleTask, htog, hsel, getDayData_updateDayData_self, applyUpdate,
        map_uncomplete_id taskId _ hall]
    · simp [handleToggleTask, htog, hsel, getDayData_updateDayData_self, applyUpdate]
    · simp [handleToggleTask, htog, hsel, getDayData_updateDayData_self, applyUpdate]
    · simp [handleToggleTask, htog, hsel, getDayData_updateDayData_self, applyUpdate]

/-- C8 (amended, witness): toggling the unknown id "x" with an unrelated
block present leaves the record unchanged. -/
theorem toggle_unknown_task_noop_witness :
    let today := str "2025-06-01"
    let b : TimeBlock :=
      { id := str "b1", startTime := str "09:00", endTime := str "10:00"
        label := str "Gym", type := str "work", taskId := some (str "t1")
        isCompleted := false, energyLevel := str "low", domain := str "Health" }
    let d0 : DayData :=
      { tasks := [], schedule := [b], explanation := [], date := today
        distractions := [], previousVersion := none }
    let days : Store := fun k => if k = today then some d0 else none
    (getDayData (handleToggleTask days today today (str "12:00") (str "x")) today).schedule
      = d0.schedule := by
  intro today b d0 days
  exact (toggle_unknown_task_noop days today today (str "12:00") (str "x")
    (by decide)).2.2.1 (by decide)

/-! ### Day Store frame property (C9) -/

/-- C9: a partial update through the Day Store preserves every field not
named in the update and leaves the records of all other dates unchanged;
in particular toggling a task preserves explanation, distractions and
previousVersion, and updating distractions preserves tasks, schedule,
explanation and previousVersion. -/
theorem updateDayData_frame (days : Store) (date : Str) (u : DayUpdate) :
    (u.tasks = none →
      (getDayData (updateDayData days date u) date).tasks = (getDayData days date).tasks) ∧
    (u.schedule = none →
      (getDayData (updateDayData days date u) date).schedule
        = (getDayData days date).schedule) ∧
    (u.explanation = none →
      (getDayData (updateDayData days date u) date).explanation
        = (getDayData days date).explanation) ∧
    (u.date = none →
      (getDayData (updateDayData days date u) date).date = (getDayData days date).date) ∧
    (u.distractions = none →
      (getDayData (updateDayData days date u) date).distractions
        = (getDayData days date).distractions) ∧
    (u.previousVersion = none →
      (getDayData (updateDayData days date u) date).previousVersion
        = (getDayData days date).previousVersion) ∧
    (∀ k, k ≠ date → updateDayData days date u k = days k) ∧
    (∀ sel todayStr currentTime taskId,
      (getDayData (handleToggleTask days sel todayStr currentTime taskId) sel).explanation
          = (getDayData days sel).explanation ∧
      (getDayData (handleToggleTask days sel todayStr currentTime taskId) sel).distractions
          = (getDayData days sel).distractions ∧
      (getDayData (handleToggleTask days sel todayStr currentTime taskId) sel).previousVersion
          = (getDayData days sel).previousVersion) ∧
    (∀ sel ds,
      (getDayData (handleUpdateDistractions days sel ds) sel).tasks
          = (getDayData days sel).tasks ∧
      (getDayData (handleUpdateDistractions days sel ds) sel).schedule
          = (getDayData days sel).schedule ∧
      (getDayData (handleUpdateDistractions days sel ds) sel).explanation
          = (getDayData days sel).explanation ∧
      (getDayData (handleUpdateDistractions days sel ds) sel).previousVersion
          = (getDayData days sel).previousVersion) := by
  refine ⟨?_, ?_, ?_, ?_, ?_, ?_, ?_, ?_, ?_⟩
  · intro h; simp [getDayData_updateDayData_self, applyUpdate, h]
  · intro h; simp [getDayData_updateDayData_self, applyUpdate, h]
  · intro h; simp [getDayData_updateDayData_self, applyUpdate, h]
  · intro h; simp [getDayData_updateDayData_self, applyUpdate, h]
  · intro h; simp [getDayData_updateDayData_self, applyUpdate, h]
  · intro h; simp [getDayData_updateDayData_self, applyUpdate, h]
  · exact fun k hk => updateDayData_other days date u k hk
  · intro sel todayStr currentTime taskId
    refine ⟨?_, ?_, ?_⟩ <;>
      simp [handleToggleTask, getDayData_updateDayData_self, applyUpdate]
  · intro sel ds
    refine ⟨?_, ?_, ?_, ?_⟩ <;>
      simp [handleUpdateDistractions, getDayData_updateDayData_self, applyUpdate]

/-- C9 (witness): a concrete distractions-only update preserves the other
fields of the record and the record of another date. -/
theorem updateDayData_frame_witness :
    let today := str "2025-06-01"
    let d0 : DayData :=
      { tasks := [], schedule := [], explanation := str "plan", date := today
        distractions := [], previousVersion := none }
    let days : Store := fun k => if k = today then some d0 else none
    let u : DayUpdate := { distractions := some [str "phone"] }
    (getDayData (updateDayData days today u) today).explanation
        = (getDayData days today).explanation ∧
    updateDayData days today u (str "2025-06-02") = days (str "2025-06-02") := by
  intro today d0 days u
  exact ⟨(updateDayData_frame days today u).2.2.1 rfl,
    (updateDayData_frame days today u).2.2.2.2.2.2.1 (str "2025-06-02") (by decide)⟩

/-! ### Order facts for the JS string comparisons -/

theorem charLt_iff (c d : Char) : c < d ↔ c.toNat < d.toNat := by
  rw [Char.lt_iff_val_lt_val, UInt32.lt_def, BitVec.lt_def]
  exact Iff.rfl

theorem strLeB_eq_not_strLtB (s t : Str) : strLeB s t = !strLtB t s := by
  induction s generalizing t with
  | nil => cases t <;> simp [strLeB, strLtB]
  | cons c cs ih =>
      cases t with
      | nil => simp [strLeB, strLtB]
      | cons d ds =>
          simp only [strLeB, strLtB]
          rcases Nat.lt_trichotomy c.toNat d.toNat with h | h | h
          · have hcd : c < d := (charLt_iff c d).mpr h
            have hdc : ¬ d < c := by rw [charLt_iff]; omega
            simp [hcd, hdc]
          · have hcd : ¬ c < d := by rw [charLt_iff]; omega
            have hdc : ¬ d < c := by rw [charLt_iff]; omega
            simp [hcd, hdc, ih]
          · have hcd : ¬ c < d := by rw [charLt_iff]; omega
            have hdc : d < c := (charLt_iff d c).mpr h
            simp [hcd, hdc]

theorem strLeB_strLtB_trans (a b c : Str) (h1 : strLeB a b = true) (h2 : strLtB b c = true) :
    strLtB a c = true := by
  induction a generalizing b c with
  | nil =>
      cases c with
      | nil => exfalso; cases b <;> simp [strLtB] at h2
      | cons z zs => simp [strLtB]
  | cons x xs ih =>
      cases b with
      | nil => simp [strLeB] at h1
      | cons y ys =>
          cases c with
          | nil => simp [strLtB] at h2
          | cons z zs =>
              simp only [strLeB, strLtB] at h1 h2 ⊢
              rcases Nat.lt_trichotomy x.toNat y.toNat with hxy | hxy | hxy
              · rcases Nat.lt_trichotomy y.toNat z.toNat with hyz | hyz | hyz
                · have : x < z := (charLt_iff x z).mpr (by omega)
                  simp [this]
                · have : x < z := (charLt_iff x z).mpr (by omega)
                  simp [this]
                · have h1' : ¬ y < z := by rw [charLt_iff]; omega
                  have h2' : z < y := (charLt_iff z y).mpr hyz
                  simp [h1', h2'] at h2
              · rcases Nat.lt_trichotomy y.toNat z.toNat with hyz | hyz | hyz
                · have : x < z := (charLt_iff x z).mpr (by omega)
                  simp [this]
                · have hxz1 : ¬ x < z := by rw [charLt_iff]; omega
                  have hxz2 : ¬ z < x := by rw [charLt_iff]; omega
                  have hxy1 : ¬ x < y := by rw [charLt_iff]; omega
                  have hxy2 : ¬ y < x := by rw [charLt_iff]; omega
                  have hyz1 : ¬ y < z := by rw [charLt_iff]; omega
                  have hyz2 : ¬ z < y := by rw [charLt_iff]; omega
                  simp [hxy1, hxy2] at h1
                  simp [hyz1, hyz2] at h2
                  simp [hxz1, hxz2]
                  exact ih ys zs h1 h2
                · have h1' : ¬ y < z := by rw [charLt_iff]; omega
                  have h2' : z < y := (charLt_iff z y).mpr hyz
                  simp [h1', h2'] at h2
              · have h1' : ¬ x < y := by rw [charLt_iff]; omega
                have h2' : y < x := (charLt_iff y x).mpr hxy
                simp [h1', h2'] at h1

/-! ### Substring facts -/

theorem leadMatch_hasSub (p l : Str) (h : leadMatch p l = true) : hasSub p l = true := by
  cases l with
  | nil =>
      cases p with
      | nil => rfl
      | cons x xs => simp [leadMatch] at h
  | cons c cs => simp [hasSub, h]

theorem hasSub_of_cons (x : Char) (p l : Str) (h : hasSub (x :: p) l = true) :
    hasSub p l = true := by
  induction l with
  | nil => simp [hasSub] at h
  | cons c cs ih =>
      simp only [hasSub, Bool.or_eq_true] at h ⊢
      rcases h with h | h
      · simp only [leadMatch, Bool.and_eq_true] at h
        exact Or.inr (leadMatch_hasSub p cs h.2)
      · exact Or.inr (ih h)

/-! ### Adaptive replan partition (C3) -/

theorem pastBlocksOf_eq_filterMap (currentTime : Str) (sched : List TimeBlock) :
    pastBlocksOf currentTime sched = sched.filterMap (fun b =>
      if strLeB b.endTime currentTime then some b
      else if strLtB b.startTime currentTime && strLtB currentTime b.endTime then
        some (truncateBlock currentTime b)
      else none) := by
  have aux : ∀ (l : List TimeBlock) (acc : List TimeBlock),
      l.foldl
        (fun acc b =>
          if strLeB b.endTime currentTime then acc ++ [b]
          else if strLtB b.startTime currentTime && strLtB currentTime b.endTime then
            acc ++ [truncateBlock currentTime b]
          else acc)
        acc
      = acc ++ l.filterMap (fun b =>
          if strLeB b.endTime currentTime then some b
          else if strLtB b.startTime currentTime && strLtB currentTime b.endTime then
            some (truncateBlock currentTime b)
          else none) := by
    intro l
    induction l with
    | nil => simp
    | cons b bs ih =>
        intro acc
        by_cases h1 : strLeB b.endTime currentTime = true
        · simp only [List.foldl_cons, List.filterMap_cons, if_pos h1]
          rw [ih, List.append_assoc]
          rfl
        · by_cases h2 : (strLtB b.startTime currentTime && strLtB currentTime b.endTime) = true
          · simp only [List.foldl_cons, List.filterMap_cons, if_neg h1, if_pos h2]
            rw [ih, List.append_assoc]
            rfl
          · simp only [List.foldl_cons, List.filterMap_cons, if_neg h1, if_neg h2]
            exact ih acc
  simpa [pastBlocksOf] using aux sched []

/-- C3: partitioning the schedule at the captured current time during a
replan keeps every already-ended block verbatim, replaces every straddling
block by a single truncated copy (derived id, endTime forced to the
current time, " (Partial)" suffix added only when not already present,
isCompleted and domain carried through), drops every not-yet-started
block, and the written-back schedule is the past partition in original
relative order followed by the gateway blocks in gateway order. -/
theorem replan_partition (days : Store) (todayStr currentTime : Str) (result : ReplanResult)
    (hwf : ∀ b ∈ (getDayData days todayStr).schedule, strLtB b.startTime b.endTime = true) :
    let sched := (getDayData days todayStr).schedule
    let pastPart : TimeBlock → Option TimeBlock := fun b =>
      if strLeB b.endTime currentTime then some b
      else if strLtB b.startTime currentTime && strLtB currentTime b.endTime then
        some (truncateBlock currentTime b)
      else none
    (getDayData (handleReplan days todayStr todayStr currentTime result) todayStr).schedule
      = sched.filterMap pastPart ++ result.schedule ∧
    (∀ b ∈ sched, strLeB b.endTime currentTime = true → pastPart b = some b) ∧
    (∀ b ∈ sched, strLtB b.startTime currentTime = true →
      strLtB currentTime b.endTime = true →
      pastPart b = some (truncateBlock currentTime b) ∧
      (truncateBlock currentTime b).id = b.id ++ str "-truncated" ∧
      (truncateBlock currentTime b).startTime = b.startTime ∧
      (truncateBlock currentTime b).endTime = currentTime ∧
      (truncateBlock currentTime b).isCompleted = b.isCompleted ∧
      (truncateBlock currentTime b).domain = b.domain ∧
      (truncateBlock currentTime b).type = b.type ∧
      (truncateBlock currentTime b).taskId = b.taskId ∧
      (strIncludes b.label (str " (Partial)") = true →
        (truncateBlock currentTime b).label = b.label) ∧
      (strIncludes b.label (str "(Partial)") = false →
        (truncateBlock currentTime b).label = b.label ++ str " (Partial)")) ∧
    (∀ b ∈ sched, strLeB currentTime b.startTime = true → pastPart b = none) := by
  refine ⟨?_, ?_, ?_, ?_⟩
  · simp [handleReplan, getDayData_updateDayData_self, applyUpdate, pastBlocksOf_eq_filterMap]
  · intro b _ h
    simp [h]
  · intro b _ h1 h2
    have hend : strLeB b.endTime currentTime = false := by
      rw [strLeB_eq_not_strLtB, h2]; rfl
    refine ⟨by simp [hend, h1, h2], rfl, rfl, rfl, rfl, rfl, rfl, rfl, ?_, ?_⟩
    · intro hsp
      have hp : strIncludes b.label (str "(Partial)") = true := by
        have hcons : str " (Partial)" = ' ' :: str "(Partial)" := by decide
        rw [strIncludes] at hsp ⊢
        rw [hcons] at hsp
        exact hasSub_of_cons ' ' _ _ hsp
      simp [truncateBlock, hp]
    · intro hnp
      simp [truncateBlock, hnp]
  · intro b hb hge
    have hwfb := hwf b hb
    have hlt : strLtB currentTime b.endTime = true := strLeB_strLtB_trans _ _ _ hge hwfb
    have hc1 : strLeB b.endTime currentTime = false := by
      rw [strLeB_eq_not_strLtB, hlt]; rfl
    have hc2 : strLtB b.startTime currentTime = false := by
      have h := strLeB_eq_not_strLtB currentTime b.startTime
      rw [hge] at h
      cases hb2 : strLtB b.startTime currentTime
      · rfl
      · rw [hb2] at h; simp at h
    simp [hc1, hc2]

/-- C3 (witness): partitioning a concrete three-block schedule (one block
already over, one in progress, one not yet started) at 12:30 keeps the
past block, truncates the in-progress block and drops the future one
before appending the gateway block. -/
theorem replan_partition_witness :
    let today := str "2025-06-01"
    let past : TimeBlock :=
      { id := str "b1", startTime := str "09:00", endTime := str "10:00"
        label := str "Read", type := str "work", taskId := none
        isCompleted := true, energyLevel := str "high", domain := str "Academic" }
    let active : TimeBlock :=
      { id := str "b2", startTime := str "12:00", endTime := str "13:00"
        label := str "Code", type := str "work", taskId := none
        isCompleted := false, energyLevel := str "medium", domain := str "Skill" }
    let future : TimeBlock :=
      { id := str "b3", startTime := str "14:00", endTime := str "15:00"
        label := str "Gym", type := str "work", taskId := none
        isCompleted := false, energyLevel := str "low", domain := str "Health" }
    let gw : TimeBlock :=
      { id := str "r1", startTime := str "12:30", endTime := str "13:30"
        label := str "New Plan", type := str "work", taskId := none
        isCompleted := false, energyLevel := str "medium", domain := str "Skill" }
    let d0 : DayData :=
      { tasks := [], schedule := [past, active, future], explanation := []
        date := today, distractions := [], previousVersion := none }
    let days : Store := fun k => if k = today then some d0 else none
    let result : ReplanResult := { tasks := [], schedule := [gw], explanation := str "ok" }
    (getDayData (handleReplan days today today (str "12:30") result) today).schedule
      = [past, truncateBlock (str "12:30") active, gw] := by
  intro today past active future gw d0 days result
  have h := replan_partition days today (str "12:30") result (by decide)
  rw [h.1]
  decide

/-! ### Time arithmetic: string order versus minute offsets (C7) -/

theorem strLeB_cons_iff (x y : Char) (xs ys : Str) :
    strLeB (x :: xs) (y :: ys) = true ↔
      (x.toNat < y.toNat ∨ (x.toNat = y.toNat ∧ strLeB xs ys = true)) := by
  simp only [strLeB]
  rcases Nat.lt_trichotomy x.toNat y.toNat with h | h | h
  · have hxy : x < y := (charLt_iff _ _).mpr h
    simp [hxy, h]
  · have hn1 : ¬ x < y := by rw [charLt_iff]; omega
    have hn2 : ¬ y < x := by rw [charLt_iff]; omega
    simp [hn1, hn2, h]
  · have hn1 : ¬ x < y := by rw [charLt_iff]; omega
    have h2 : y < x := (charLt_iff _ _).mpr h
    simp [hn1, h2]
    omega

theorem strLtB_cons_iff (x y : Char) (xs ys : Str) :
    strLtB (x :: xs) (y :: ys) = true ↔
      (x.toNat < y.toNat ∨ (x.toNat = y.toNat ∧ strLtB xs ys = true)) := by
  simp only [strLtB]
  rcases Nat.lt_trichotomy x.toNat y.toNat with h | h | h
  · have hxy : x < y := (charLt_iff _ _).mpr h
    simp [hxy, h]
  · have hn1 : ¬ x < y := by rw [charLt_iff]; omega
    have hn2 : ¬ y < x := by rw [charLt_iff]; omega
    simp [hn1, hn2, h]
  · have hn1 : ¬ x < y := by rw [charLt_iff]; omega
    have h2 : y < x := (charLt_iff _ _).mpr h
    simp [hn1, h2]
    omega

theorem isValidHHMM_shape (s : Str) (h : isValidHHMM s = true) :
    ∃ h1 h2 m1 m2 : Char, s = [h1, h2, ':', m1, m2] ∧
      48 ≤ h1.toNat ∧ h1.toNat ≤ 57 ∧ 48 ≤ h2.toNat ∧ h2.toNat ≤ 57 ∧
      48 ≤ m1.toNat ∧ m1.toNat ≤ 57 ∧ 48 ≤ m2.toNat ∧ m2.toNat ≤ 57 ∧
      (h1.toNat - 48) * 10 + (h2.toNat - 48) < 24 ∧
      (m1.toNat - 48) * 10 + (m2.toNat - 48) < 60 := by
  cases s with
  | nil => simp [isValidHHMM] at h
  | cons x1 s =>
  cases s with
  | nil => simp [isValidHHMM] at h
  | cons x2 s =>
  cases s with
  | nil => simp [isValidHHMM] at h
  | cons x3 s =>
  cases s with
  | nil => simp [isValidHHMM] at h
  | cons x4 s =>
  cases s with
  | nil => simp [isValidHHMM] at h
  | cons x5 s =>
  cases s with
  | cons x6 s => simp [isValidHHMM] at h
  | nil =>
      simp only [isValidHHMM, isDigitCh, Bool.and_eq_true, beq_iff_eq,
        decide_eq_true_eq] at h
      obtain ⟨⟨⟨⟨⟨⟨hc, hd1⟩, hd2⟩, hd3⟩, hd4⟩, hh⟩, hm⟩ := h
      subst hc
      exact ⟨x1, x2, x4, x5, rfl, hd1.1, hd1.2, hd2.1, hd2.2, hd3.1, hd3.2,
        hd4.1, hd4.2, hh, hm⟩

theorem getMinutes_five (a1 a2 b1 b2 : Char)
    (h1 : a1.toNat ≤ 57) (h2 : a2.toNat ≤ 57) (h3 : b1.toNat ≤ 57) (h4 : b2.toNat ≤ 57) :
    getMinutes [a1, a2, ':', b1, b2]
      = ((a1.toNat - 48) * 10 + (a2.toNat - 48)) * 60
        + ((b1.toNat - 48) * 10 + (b2.toNat - 48)) := by
  have hcolon : (':' : Char).toNat = 58 := by decide
  have ha1 : a1 ≠ ':' := by intro e; rw [e, hcolon] at h1; omega
  have ha2 : a2 ≠ ':' := by intro e; rw [e, hcolon] at h2; omega
  have hb1 : b1 ≠ ':' := by intro e; rw [e, hcolon] at h3; omega
  have hb2 : b2 ≠ ':' := by intro e; rw [e, hcolon] at h4; omega
  simp [getMinutes, splitOnChar, toNumber, ha1, ha2, hb1, hb2]

/-- C7: for well-formed HH:MM strings the lexicographic string
comparisons used by the reconciler and the replan partition agree with
numeric comparison of `getMinutes` offsets, both for the strict and the
non-strict order. -/
theorem hhmm_string_compare_eq_minutes_compare (s t : Str)
    (hs : isValidHHMM s = true) (ht : isValidHHMM t = true) :
    (strLeB s t = true ↔ getMinutes s ≤ getMinutes t) ∧
    (strLtB s t = true ↔ getMinutes s < getMinutes t) := by
  obtain ⟨a1, a2, b1, b2, rfl, ha1l, ha1u, ha2l, ha2u, hb1l, hb1u, hb2l, hb2u, hh, hm⟩ :=
    isValidHHMM_shape s hs
  obtain ⟨c1, c2, d1, d2, rfl, hc1l, hc1u, hc2l, hc2u, hd1l, hd1u, hd2l, hd2u, hh2, hm2⟩ :=
    isValidHHMM_shape t ht
  have hcolon : (':' : Char).toNat = 58 := by decide
  rw [getMinutes_five a1 a2 b1 b2 ha1u ha2u hb1u hb2u,
      getMinutes_five c1 c2 d1 d2 hc1u hc2u hd1u hd2u]
  constructor
  · rw [strLeB_cons_iff, strLeB_cons_iff, strLeB_cons_iff, strLeB_cons_iff, strLeB_cons_iff]
    simp only [hcolon, strLeB, Bool.false_eq_true, and_false, or_false, false_or,
      eq_self_iff_true, true_and, and_true]
    omega
  · rw [strLtB_cons_iff, strLtB_cons_iff, strLtB_cons_iff, strLtB_cons_iff, strLtB_cons_iff]
    simp only [hcolon, strLtB, Bool.false_eq_true, and_false, or_false, false_or,
      eq_self_iff_true, true_and, and_true]
    omega

/-- C7 (witness): the comparison of the concrete well-formed times 09:30
and 14:05. -/
theorem hhmm_string_compare_eq_minutes_compare_witness :
    strLeB (str "09:30") (str "14:05") = true ∧
    getMinutes (str "09:30") ≤ getMinutes (str "14:05") := by
  have h := hhmm_string_compare_eq_minutes_compare (str "09:30") (str "14:05")
    (by decide) (by decide)
  exact ⟨by decide, h.1.mp (by decide)⟩

end FocusOne
